import Mathlib

/-
  Shallow embedding of the file-census repository (three Python pipelines:
  file_census.py, downloads_weekly_review.py, summary_report.py).
  Machine integers are modelled as Nat, POSIX timestamps as exact rationals,
  Python str as Lean String (List Char where character-level work is needed).
  Python floats in format_file_size are modelled by exact rationals: every
  operation performed there (division by 1024, comparison with 1024) is exact
  in binary floating point for byte counts below 2^53, and rendering with one
  fractional digit uses round-half-to-even exactly as CPython does.
-/

set_option maxHeartbeats 1000000

namespace FileCensus

/- ------------------------------------------------------------------
   format_file_size (identical in all three source files:
   file_census.py lines 24-35, downloads_weekly_review.py lines 25-36,
   summary_report.py lines 15-26).
   ------------------------------------------------------------------ -/

/-- Unit names list of the source (`size_names = ["B","KB","MB","GB","TB"]`),
as a total indexing function; the loop index never exceeds 4. -/
def sizeName : Nat → String
  | 0 => "B"
  | 1 => "KB"
  | 2 => "MB"
  | 3 => "GB"
  | _ => "TB"

/-- Round a rational to the nearest integer, ties going to the even integer:
the rounding CPython performs when formatting a binary float with one
fractional digit. -/
def roundHalfEven (q : ℚ) : ℤ :=
  let f := ⌊q⌋
  let r := q - (f : ℚ)
  if r < 1 / 2 then f
  else if 1 / 2 < r then f + 1
  else if f % 2 = 0 then f else f + 1

/-- Rendering of a nonnegative value with exactly one fractional digit,
as CPython's format specifier `.1f` does on the values reached here. -/
def fmtOneDec (x : ℚ) : String :=
  let m := roundHalfEven (10 * x)
  toString (m / 10) ++ "." ++ toString (m % 10)

/-- The division loop of `format_file_size`:
`while size_bytes >= 1024 and i < len(size_names) - 1`.  The fuel argument
only bounds the recursion; started with fuel `4` and index `0` the fuel can
run out only when `i = 4`, where the loop condition is false anyway, so the
behaviour is exactly the source's while loop. -/
def fsIter : Nat → ℚ → Nat → ℚ × Nat
  | 0, x, i => (x, i)
  | fuel + 1, x, i =>
      if 1024 ≤ x ∧ i < 4 then fsIter fuel (x / 1024) (i + 1) else (x, i)

/-- `format_file_size` on an arbitrary (rational-valued) input; the source
applies it both to integer byte counts and to the float `average_size`. -/
def formatFileSizeQ (x : ℚ) : String :=
  if x = 0 then "0 B"
  else fmtOneDec (fsIter 4 x 0).1 ++ " " ++ sizeName (fsIter 4 x 0).2

/-- `format_file_size` on an integer byte count. -/
def formatFileSize (n : Nat) : String :=
  formatFileSizeQ (n : ℚ)

/-- Specification-side unit index: the number of divisions by 1024 the
contract calls for, i.e. the largest `i ≤ 4` with `1024 ^ i ≤ n`. -/
def specIdx (n : Nat) : Nat :=
  min (Nat.log 1024 n) 4

theorem specIdx_le_four (n : Nat) : specIdx n ≤ 4 :=
  min_le_right _ _

theorem specIdx_le_log (n : Nat) : specIdx n ≤ Nat.log 1024 n :=
  min_le_left _ _

theorem pow_specIdx_le (n : Nat) (hn : 0 < n) : 1024 ^ specIdx n ≤ n := by
  calc 1024 ^ specIdx n ≤ 1024 ^ Nat.log 1024 n :=
        Nat.pow_le_pow_right (by norm_num) (specIdx_le_log n)
    _ ≤ n := Nat.pow_log_le_self 1024 (Nat.pos_iff_ne_zero.mp hn)

theorem lt_pow_specIdx_succ (n : Nat) (h : specIdx n < 4) :
    n < 1024 ^ (specIdx n + 1) := by
  have hlog : specIdx n = Nat.log 1024 n := by
    unfold specIdx at h ⊢
    omega
  rw [hlog]
  exact Nat.lt_pow_succ_log_self (by norm_num) n

/-- The while loop of `format_file_size` performs exactly `specIdx n`
divisions on a positive integer input. -/
theorem fsIter_spec (n : Nat) (hn : 0 < n) :
    ∀ fuel j, j + fuel = 4 → j ≤ specIdx n →
      fsIter fuel ((n : ℚ) / 1024 ^ j) j =
        ((n : ℚ) / 1024 ^ specIdx n, specIdx n) := by
  intro fuel
  induction fuel with
  | zero =>
      intro j hj hjd
      have h4 : specIdx n ≤ 4 := specIdx_le_four n
      have : j = specIdx n := by omega
      subst this
      rfl
  | succ fuel ih =>
      intro j hj hjd
      rcases Nat.lt_or_ge j (specIdx n) with hlt | hge
      · have hj1 : j + 1 ≤ specIdx n := hlt
        have hpow : (1024 : ℕ) ^ (j + 1) ≤ n := by
          calc (1024 : ℕ) ^ (j + 1) ≤ 1024 ^ specIdx n :=
                Nat.pow_le_pow_right (by norm_num) hj1
            _ ≤ n := pow_specIdx_le n hn
        have hcond : (1024 : ℚ) ≤ (n : ℚ) / 1024 ^ j := by
          rw [le_div_iff₀ (by positivity)]
          have := (Nat.cast_le (α := ℚ)).mpr hpow
          push_cast at this
          calc (1024 : ℚ) * 1024 ^ j = 1024 ^ (j + 1) := by ring
            _ ≤ (n : ℚ) := this
        have hi4 : j < 4 := by
          have := specIdx_le_four n
          omega
        show fsIter (fuel + 1) ((n : ℚ) / 1024 ^ j) j = _
        rw [fsIter, if_pos ⟨hcond, hi4⟩]
        have hdiv : (n : ℚ) / 1024 ^ j / 1024 = (n : ℚ) / 1024 ^ (j + 1) := by
          rw [div_div, ← pow_succ]
        rw [hdiv]
        exact ih (j + 1) (by omega) hj1
      · have hjd' : j = specIdx n := le_antisymm hjd hge
        subst hjd'
        show fsIter (fuel + 1) ((n : ℚ) / 1024 ^ specIdx n) (specIdx n) = _
        rw [fsIter]
        rcases Nat.lt_or_ge (specIdx n) 4 with h4 | h4
        · have hlt : n < 1024 ^ (specIdx n + 1) := lt_pow_specIdx_succ n h4
          have hcond : (n : ℚ) / 1024 ^ specIdx n < 1024 := by
            rw [div_lt_iff₀ (by positivity)]
            have := (Nat.cast_lt (α := ℚ)).mpr hlt
            push_cast at this
            calc (n : ℚ) < 1024 ^ (specIdx n + 1) := this
              _ = 1024 * 1024 ^ specIdx n := by ring
          rw [if_neg]
          rintro ⟨hc, -⟩
          exact absurd hc (not_le.mpr hcond)
        · rw [if_neg]
          rintro ⟨-, hc⟩
          omega

/-- On a positive integer input, `format_file_size` divides the value by
`1024 ^ specIdx n` and renders it with one fractional digit next to the
`specIdx n`-th unit name. -/
theorem formatFileSize_eq (n : Nat) (hn : 0 < n) :
    formatFileSize n =
      fmtOneDec ((n : ℚ) / 1024 ^ specIdx n) ++ " " ++ sizeName (specIdx n) := by
  have hne : (n : ℚ) ≠ 0 := by
    exact_mod_cast Nat.pos_iff_ne_zero.mp hn
  have hloop := fsIter_spec n hn 4 0 (by omega) (Nat.zero_le _)
  rw [pow_zero, div_one] at hloop
  unfold formatFileSize formatFileSizeQ
  rw [if_neg hne, hloop]

/-- Rounding an integer-valued rational is the identity. -/
theorem roundHalfEven_intCast (n : ℤ) : roundHalfEven ((n : ℚ)) = n := by
  simp only [roundHalfEven, Int.floor_intCast]
  norm_num

/- ------------------------------------------------------------------
   Stable sorting.  CPython's `sorted` / `list.sort` are stable; with
   `reverse=True` the comparison is reversed while equal keys keep their
   original relative order.  Modelled as a stable insertion sort over a
   boolean "may go before" relation.
   ------------------------------------------------------------------ -/

/-- Insert `x` (an element originally earlier than everything in `l`) into
the already-sorted `l`, before the first element it may precede. -/
def pyInsert (le : α → α → Bool) (x : α) : List α → List α
  | [] => [x]
  | y :: ys => if le x y then x :: y :: ys else y :: pyInsert le x ys

/-- Stable sort with respect to `le`: equal elements keep input order. -/
def pySorted (le : α → α → Bool) : List α → List α
  | [] => []
  | x :: xs => pyInsert le x (pySorted le xs)

theorem pyInsert_perm (le : α → α → Bool) (x : α) (l : List α) :
    List.Perm (pyInsert le x l) (x :: l) := by
  induction l with
  | nil => exact List.Perm.refl _
  | cons y ys ih =>
      unfold pyInsert
      by_cases h : le x y
      · rw [if_pos h]
      · rw [if_neg h]
        exact List.Perm.trans (List.Perm.cons y ih) (List.Perm.swap x y ys)

theorem pySorted_perm (le : α → α → Bool) (l : List α) :
    List.Perm (pySorted le l) l := by
  induction l with
  | nil => exact List.Perm.refl _
  | cons x xs ih =>
      exact List.Perm.trans (pyInsert_perm le x (pySorted le xs))
        (List.Perm.cons x ih)

theorem mem_pyInsert (le : α → α → Bool) (x a : α) (l : List α) :
    a ∈ pyInsert le x l ↔ a = x ∨ a ∈ l := by
  rw [(pyInsert_perm le x l).mem_iff, List.mem_cons]

theorem pyInsert_pairwise (le : α → α → Bool)
    (htot : ∀ a b, le a b = true ∨ le b a = true)
    (htr : ∀ a b c, le a b = true → le b c = true → le a c = true)
    (x : α) (l : List α) (hl : l.Pairwise (fun a b => le a b = true)) :
    (pyInsert le x l).Pairwise (fun a b => le a b = true) := by
  induction l with
  | nil => simp [pyInsert]
  | cons y ys ih =>
      rcases hl with _ | ⟨hy, hys⟩
      unfold pyInsert
      by_cases h : le x y
      · rw [if_pos h]
        refine List.Pairwise.cons ?_ (List.Pairwise.cons hy hys)
        intro b hb
        rcases List.mem_cons.mp hb with hb' | hb'
        · exact hb' ▸ h
        · exact htr x y b h (hy b hb')
      · rw [if_neg h]
        have hyx : le y x = true := by
          rcases htot x y with h' | h'
          · exact absurd h' h
          · exact h'
        refine List.Pairwise.cons ?_ (ih hys)
        intro b hb
        rcases (mem_pyInsert le x b ys).mp hb with hb' | hb'
        · exact hb' ▸ hyx
        · exact hy b hb'

theorem pySorted_pairwise (le : α → α → Bool)
    (htot : ∀ a b, le a b = true ∨ le b a = true)
    (htr : ∀ a b c, le a b = true → le b c = true → le a c = true)
    (l : List α) :
    (pySorted le l).Pairwise (fun a b => le a b = true) := by
  induction l with
  | nil => simp [pySorted]
  | cons x xs ih => exact pyInsert_pairwise le htot htr x (pySorted le xs) ih

/-- Stability, expressed through filtering: inserting `x` commutes with
filtering by any predicate `p` that no element strictly greater than a
`p`-element can satisfy. -/
theorem filter_pyInsert (le : α → α → Bool) (p : α → Bool)
    (hp : ∀ a b, p a = true → le a b = false → p b = false)
    (x : α) (l : List α) :
    (pyInsert le x l).filter p =
      if p x = true then x :: l.filter p else l.filter p := by
  induction l with
  | nil => simp [pyInsert, List.filter_cons]
  | cons y ys ih =>
      unfold pyInsert
      by_cases h : le x y
      · rw [if_pos h]
        by_cases hx : p x = true <;>
          simp [List.filter_cons, hx]
      · rw [if_neg h]
        by_cases hx : p x = true
        · have hy : p y = false := hp x y hx (by simpa using h)
          simp [List.filter_cons, hy, ih, hx]
        · simp [List.filter_cons, ih, hx]

theorem filter_pySorted (le : α → α → Bool) (p : α → Bool)
    (hp : ∀ a b, p a = true → le a b = false → p b = false)
    (l : List α) :
    (pySorted le l).filter p = l.filter p := by
  induction l with
  | nil => rfl
  | cons x xs ih =>
      show (pyInsert le x (pySorted le xs)).filter p = _
      rw [filter_pyInsert le p hp]
      by_cases hx : p x = true <;>
        simp [List.filter_cons, hx, ih]

/-- `sorted(key=key, reverse=True)`: stable sort descending by `key`. -/
def sortDescBy (key : α → γ) [LinearOrder γ] (l : List α) : List α :=
  pySorted (fun a b => decide (key b ≤ key a)) l

/-- `sorted(key=key)` / `list.sort(key=key)`: stable sort ascending. -/
def sortAscBy (key : α → γ) [LinearOrder γ] (l : List α) : List α :=
  pySorted (fun a b => decide (key a ≤ key b)) l

theorem sortDescBy_perm (key : α → γ) [LinearOrder γ] (l : List α) :
    List.Perm (sortDescBy key l) l :=
  pySorted_perm _ l

theorem sortDescBy_pairwise (key : α → γ) [LinearOrder γ] (l : List α) :
    (sortDescBy key l).Pairwise (fun a b => key b ≤ key a) := by
  have h := pySorted_pairwise (fun a b => decide (key b ≤ key a))
    (fun a b => by
      rcases le_total (key b) (key a) with h | h
      · exact Or.inl (decide_eq_true h)
      · exact Or.inr (decide_eq_true h))
    (fun a b c hab hbc => by
      exact decide_eq_true (le_trans (of_decide_eq_true hbc)
        (of_decide_eq_true hab)))
    l
  exact h.imp fun hab => of_decide_eq_true hab

theorem sortDescBy_filter_key (key : α → γ) [LinearOrder γ] (k : γ)
    (l : List α) :
    (sortDescBy key l).filter (fun a => decide (key a = k)) =
      l.filter (fun a => decide (key a = k)) := by
  refine filter_pySorted _ _ ?_ l
  intro a b ha hab
  have hak : key a = k := of_decide_eq_true ha
  have hnot : ¬ key b ≤ key a := of_decide_eq_false hab
  have hlt : key a < key b := not_le.mp hnot
  have hne : key b ≠ k := by
    rw [← hak]
    exact ne_of_gt hlt
  exact decide_eq_false hne

theorem sortAscBy_perm (key : α → γ) [LinearOrder γ] (l : List α) :
    List.Perm (sortAscBy key l) l :=
  pySorted_perm _ l

theorem sortAscBy_pairwise (key : α → γ) [LinearOrder γ] (l : List α) :
    (sortAscBy key l).Pairwise (fun a b => key a ≤ key b) := by
  have h := pySorted_pairwise (fun a b => decide (key a ≤ key b))
    (fun a b => by
      rcases le_total (key a) (key b) with h | h
      · exact Or.inl (decide_eq_true h)
      · exact Or.inr (decide_eq_true h))
    (fun a b c hab hbc => by
      exact decide_eq_true (le_trans (of_decide_eq_true hab)
        (of_decide_eq_true hbc)))
    l
  exact h.imp fun hab => of_decide_eq_true hab

/- ------------------------------------------------------------------
   Decimal digits: Python's `str(int)` on nonnegative integers and the
   digit-reading part of `int(str)` / `strptime`.
   ------------------------------------------------------------------ -/

def digitChar (n : Nat) : Char :=
  Char.ofNat (48 + n)

/-- Digit accumulation of `str(n)`; fuel-driven so that it is structural.
With fuel at least `n` the fuel never runs out before `n < 10`, so this is
the plain repeated-division algorithm. -/
def natStrAux : Nat → Nat → List Char → List Char
  | 0, n, acc => digitChar n :: acc
  | fuel + 1, n, acc =>
      if n < 10 then digitChar n :: acc
      else natStrAux fuel (n / 10) (digitChar (n % 10) :: acc)

/-- The decimal representation of a nonnegative integer, as `str` yields. -/
def natStr (n : Nat) : List Char :=
  natStrAux n n []

theorem digitChar_toNat (n : Nat) (h : n < 10) :
    (digitChar n).toNat = 48 + n := by
  interval_cases n <;> decide

theorem digitChar_isDigit (n : Nat) (h : n < 10) :
    (digitChar n).isDigit = true := by
  interval_cases n <;> decide

theorem natStrAux_eq (n : Nat) :
    ∀ fuel acc, n ≤ fuel → natStrAux fuel n acc = natStr n ++ acc := by
  induction n using Nat.strong_induction_on with
  | _ n ih =>
      intro fuel acc hfuel
      by_cases h10 : n < 10
      · have hbase : natStr n = [digitChar n] := by
          unfold natStr
          cases n with
          | zero => rfl
          | succ m =>
              show natStrAux (m + 1) (m + 1) [] = _
              rw [natStrAux, if_pos h10]
        cases fuel with
        | zero =>
            have : n = 0 := Nat.le_zero.mp hfuel
            subst this
            rfl
        | succ f =>
            rw [natStrAux, if_pos h10, hbase]
            rfl
      · have h10' : 10 ≤ n := Nat.not_lt.mp h10
        have hdivlt : n / 10 < n := Nat.div_lt_self (by omega) (by omega)
        cases fuel with
        | zero => omega
        | succ f =>
            rw [natStrAux, if_neg h10]
            have hstep : natStrAux f (n / 10) (digitChar (n % 10) :: acc) =
                natStr (n / 10) ++ digitChar (n % 10) :: acc :=
              ih (n / 10) hdivlt f _ (by omega)
            rw [hstep]
            have hself : natStr n = natStr (n / 10) ++ [digitChar (n % 10)] := by
              unfold natStr
              cases n with
              | zero => omega
              | succ m =>
                  show natStrAux (m + 1) (m + 1) [] = _
                  rw [natStrAux, if_neg h10]
                  exact ih ((m + 1) / 10) hdivlt m _ (by omega)
            rw [hself, List.append_assoc]
            rfl

theorem natStr_rec (n : Nat) (h : 10 ≤ n) :
    natStr n = natStr (n / 10) ++ [digitChar (n % 10)] := by
  unfold natStr
  cases n with
  | zero => omega
  | succ m =>
      show natStrAux (m + 1) (m + 1) [] = _
      rw [natStrAux, if_neg (by omega)]
      exact natStrAux_eq ((m + 1) / 10) m _
        (by
          have : (m + 1) / 10 < m + 1 := Nat.div_lt_self (by omega) (by omega)
          omega)

theorem natStr_base (n : Nat) (h : n < 10) : natStr n = [digitChar n] := by
  unfold natStr
  cases n with
  | zero => rfl
  | succ m =>
      show natStrAux (m + 1) (m + 1) [] = _
      rw [natStrAux, if_pos h]

theorem natStr_all_digits (n : Nat) :
    ∀ c ∈ natStr n, c.isDigit = true := by
  induction n using Nat.strong_induction_on with
  | _ n ih =>
      by_cases h10 : n < 10
      · rw [natStr_base n h10]
        intro c hc
        rw [List.mem_singleton.mp hc]
        exact digitChar_isDigit n h10
      · rw [natStr_rec n (Nat.not_lt.mp h10)]
        intro c hc
        rcases List.mem_append.mp hc with hc' | hc'
        · exact ih (n / 10) (Nat.div_lt_self (by omega) (by omega)) c hc'
        · rw [List.mem_singleton.mp hc']
          exact digitChar_isDigit (n % 10) (Nat.mod_lt n (by omega))

theorem natStr_ne_nil (n : Nat) : natStr n ≠ [] := by
  by_cases h10 : n < 10
  · rw [natStr_base n h10]
    exact List.cons_ne_nil _ _
  · rw [natStr_rec n (Nat.not_lt.mp h10)]
    simp

/-- The digit-folding value extraction all the parsers share. -/
def readNat (cs : List Char) : Nat :=
  cs.foldl (fun a c => a * 10 + (c.toNat - 48)) 0

theorem readNat_append_digit (cs : List Char) (c : Char) :
    readNat (cs ++ [c]) = readNat cs * 10 + (c.toNat - 48) := by
  unfold readNat
  rw [List.foldl_append]
  rfl

theorem readNat_natStr (n : Nat) : readNat (natStr n) = n := by
  induction n using Nat.strong_induction_on with
  | _ n ih =>
      by_cases h10 : n < 10
      · rw [natStr_base n h10]
        show 0 * 10 + ((digitChar n).toNat - 48) = n
        rw [digitChar_toNat n h10]
        omega
      · rw [natStr_rec n (Nat.not_lt.mp h10), readNat_append_digit,
          ih (n / 10) (Nat.div_lt_self (by omega) (by omega)),
          digitChar_toNat (n % 10) (Nat.mod_lt n (by omega))]
        omega

/-- Zero padding to two positions, as strftime's `%m %d %H %M %S` emit. -/
def pad2 (n : Nat) : List Char :=
  if n < 10 then '0' :: natStr n else natStr n

theorem pad2_all_digits (n : Nat) : ∀ c ∈ pad2 n, c.isDigit = true := by
  unfold pad2
  by_cases h : n < 10
  · rw [if_pos h]
    intro c hc
    rcases List.mem_cons.mp hc with hc' | hc'
    · rw [hc']
      decide
    · exact natStr_all_digits n c hc'
  · rw [if_neg h]
    exact natStr_all_digits n

theorem pad2_ne_nil (n : Nat) : pad2 n ≠ [] := by
  unfold pad2
  by_cases h : n < 10
  · rw [if_pos h]
    exact List.cons_ne_nil _ _
  · rw [if_neg h]
    exact natStr_ne_nil n

theorem readNat_pad2 (n : Nat) : readNat (pad2 n) = n := by
  unfold pad2
  by_cases h : n < 10
  · rw [if_pos h]
    show List.foldl _ (0 * 10 + ('0'.toNat - 48)) (natStr n) = n
    have : 0 * 10 + ('0'.toNat - 48) = 0 := by decide
    rw [this]
    exact readNat_natStr n
  · rw [if_neg h]
    exact readNat_natStr n

/- ------------------------------------------------------------------
   Datetimes: `datetime.strftime('%Y-%m-%d %H:%M:%S')` on the write side
   (file_census.py line 77) and `datetime.strptime(s, '%Y-%m-%d %H:%M:%S')`
   on the read side (summary_report.py line 40).
   ------------------------------------------------------------------ -/

structure DateTime where
  year : Nat
  month : Nat
  day : Nat
  hour : Nat
  minute : Nat
  second : Nat
deriving DecidableEq

/-- `strftime('%Y-%m-%d %H:%M:%S')`: the year unpadded (it has four digits
for every year the hypothesis range admits), the rest zero-padded to two. -/
def fmtDT (dt : DateTime) : String :=
  String.mk (natStr dt.year ++ '-' ::
    (pad2 dt.month ++ '-' ::
      (pad2 dt.day ++ ' ' ::
        (pad2 dt.hour ++ ':' ::
          (pad2 dt.minute ++ ':' :: pad2 dt.second)))))

/-- Greedy digit-token reader of `strptime`: consume a nonempty maximal
digit run and return its value next to the rest. -/
def spanNum (cs : List Char) : Option (Nat × List Char) :=
  let t := cs.takeWhile Char.isDigit
  if t.isEmpty then none
  else some (readNat t, cs.dropWhile Char.isDigit)

def expectChar (c : Char) : List Char → Option (List Char)
  | x :: rest => if x = c then some rest else none
  | [] => none

/-- `strptime(s, '%Y-%m-%d %H:%M:%S')`, including the field-range
validation strptime performs (`%Y` at most four digits, `%m` 1-12,
`%d` 1-31, `%H` 0-23, `%M` 0-59, `%S` 0-61). -/
def parseDT (s : String) : Option DateTime := do
  let (y, r1) ← spanNum s.data
  let r2 ← expectChar '-' r1
  let (mo, r3) ← spanNum r2
  let r4 ← expectChar '-' r3
  let (d, r5) ← spanNum r4
  let r6 ← expectChar ' ' r5
  let (h, r7) ← spanNum r6
  let r8 ← expectChar ':' r7
  let (mi, r9) ← spanNum r8
  let r10 ← expectChar ':' r9
  let (se, r11) ← spanNum r10
  if r11 = [] ∧ y ≤ 9999 ∧ 1 ≤ mo ∧ mo ≤ 12 ∧ 1 ≤ d ∧ d ≤ 31 ∧
      h ≤ 23 ∧ mi ≤ 59 ∧ se ≤ 61 then
    some ⟨y, mo, d, h, mi, se⟩
  else none

theorem takeWhile_all_append (p : Char → Bool) (l r : List Char)
    (hl : ∀ c ∈ l, p c = true)
    (hr : ∀ c t, r = c :: t → p c = false) :
    (l ++ r).takeWhile p = l ∧ (l ++ r).dropWhile p = r := by
  induction l with
  | nil =>
      cases r with
      | nil => exact ⟨rfl, rfl⟩
      | cons c t =>
          have hc : p c = false := hr c t rfl
          constructor
          · show List.takeWhile p (c :: t) = []
            rw [List.takeWhile_cons, hc]
            simp
          · show List.dropWhile p (c :: t) = c :: t
            rw [List.dropWhile_cons, hc]
            simp
  | cons x xs ih =>
      have hx : p x = true := hl x (List.mem_cons_self _ _)
      have ih' := ih (fun c hc => hl c (List.mem_cons_of_mem _ hc))
      constructor
      · show List.takeWhile p (x :: (xs ++ r)) = x :: xs
        rw [List.takeWhile_cons, hx, ih'.1]
        simp
      · show List.dropWhile p (x :: (xs ++ r)) = r
        rw [List.dropWhile_cons, hx, ih'.2]
        simp

theorem spanNum_of (l r : List Char)
    (hl : ∀ c ∈ l, c.isDigit = true)
    (hne : l ≠ [])
    (hr : ∀ c t, r = c :: t → c.isDigit = false) :
    spanNum (l ++ r) = some (readNat l, r) := by
  have h := takeWhile_all_append Char.isDigit l r hl hr
  unfold spanNum
  rw [h.1, h.2]
  rw [if_neg (by simpa [List.isEmpty_iff] using hne)]

theorem expectChar_cons (c : Char) (t : List Char) :
    expectChar c (c :: t) = some t := by
  show (if c = c then some t else none) = some t
  rw [if_pos rfl]

/-- Validity range guaranteed by `datetime.fromtimestamp` for every field
`strftime` prints (Python datetimes satisfy these bounds by construction). -/
def dtValid (dt : DateTime) : Prop :=
  dt.year ≤ 9999 ∧ 1 ≤ dt.month ∧ dt.month ≤ 12 ∧ 1 ≤ dt.day ∧
    dt.day ≤ 31 ∧ dt.hour ≤ 23 ∧ dt.minute ≤ 59 ∧ dt.second ≤ 59

instance (dt : DateTime) : Decidable (dtValid dt) := by
  unfold dtValid
  infer_instance

/-- The strptime parse of a strftime-formatted datetime recovers the
datetime exactly. -/
theorem parseDT_fmtDT (dt : DateTime) (hv : dtValid dt) :
    parseDT (fmtDT dt) = some dt := by
  obtain ⟨y, mo, d, h, mi, se⟩ := dt
  obtain ⟨hy, hmo1, hmo2, hd1, hd2, hh, hmi, hse⟩ := hv
  dsimp only at hy hmo1 hmo2 hd1 hd2 hh hmi hse
  have hyr := spanNum_of (natStr y)
    ('-' :: (pad2 mo ++ '-' :: (pad2 d ++ ' ' ::
      (pad2 h ++ ':' :: (pad2 mi ++ ':' :: pad2 se)))))
    (natStr_all_digits y) (natStr_ne_nil y)
    (fun c t hct => by
      injection hct with hc ht
      rw [← hc]
      decide)
  have hmo := spanNum_of (pad2 mo)
    ('-' :: (pad2 d ++ ' ' :: (pad2 h ++ ':' :: (pad2 mi ++ ':' :: pad2 se))))
    (pad2_all_digits mo) (pad2_ne_nil mo)
    (fun c t hct => by
      injection hct with hc ht
      rw [← hc]
      decide)
  have hda := spanNum_of (pad2 d)
    (' ' :: (pad2 h ++ ':' :: (pad2 mi ++ ':' :: pad2 se)))
    (pad2_all_digits d) (pad2_ne_nil d)
    (fun c t hct => by
      injection hct with hc ht
      rw [← hc]
      decide)
  have hho := spanNum_of (pad2 h)
    (':' :: (pad2 mi ++ ':' :: pad2 se))
    (pad2_all_digits h) (pad2_ne_nil h)
    (fun c t hct => by
      injection hct with hc ht
      rw [← hc]
      decide)
  have hmin := spanNum_of (pad2 mi)
    (':' :: pad2 se)
    (pad2_all_digits mi) (pad2_ne_nil mi)
    (fun c t hct => by
      injection hct with hc ht
      rw [← hc]
      decide)
  have hsec := spanNum_of (pad2 se) []
    (pad2_all_digits se) (pad2_ne_nil se)
    (fun c t hct => by cases hct)
  rw [List.append_nil] at hsec
  unfold parseDT fmtDT
  show Option.bind (spanNum (natStr y ++ '-' ::
    (pad2 mo ++ '-' :: (pad2 d ++ ' ' ::
      (pad2 h ++ ':' :: (pad2 mi ++ ':' :: pad2 se)))))) _ = _
  rw [hyr]
  simp only [Option.bind_eq_bind, Option.some_bind]
  rw [expectChar_cons]
  simp only [Option.bind_eq_bind, Option.some_bind]
  rw [hmo]
  simp only [Option.bind_eq_bind, Option.some_bind]
  rw [expectChar_cons]
  simp only [Option.bind_eq_bind, Option.some_bind]
  rw [hda]
  simp only [Option.bind_eq_bind, Option.some_bind]
  rw [expectChar_cons]
  simp only [Option.bind_eq_bind, Option.some_bind]
  rw [hho]
  simp only [Option.bind_eq_bind, Option.some_bind]
  rw [expectChar_cons]
  simp only [Option.bind_eq_bind, Option.some_bind]
  rw [hmin]
  simp only [Option.bind_eq_bind, Option.some_bind]
  rw [expectChar_cons]
  simp only [Option.bind_eq_bind, Option.some_bind]
  rw [hsec]
  simp only [Option.bind_eq_bind, Option.some_bind]
  rw [readNat_natStr, readNat_pad2, readNat_pad2, readNat_pad2,
    readNat_pad2, readNat_pad2]
  rw [if_pos]
  exact ⟨trivial, hy, hmo1, hmo2, hd1, hd2, hh, hmi, by omega⟩

/-- Python's `int(s)` on the strings the census writes (plain decimal
digit runs); other strings are out of the round-trip's reach and map to a
parse failure (fatal in the source). -/
def pyIntNat (s : String) : Option Nat :=
  if s.data ≠ [] ∧ ∀ c ∈ s.data, c.isDigit = true then some (readNat s.data)
  else none

theorem pyIntNat_natStr (n : Nat) :
    pyIntNat (String.mk (natStr n)) = some n := by
  unfold pyIntNat
  rw [if_pos ⟨natStr_ne_nil n, natStr_all_digits n⟩, readNat_natStr]

/- ------------------------------------------------------------------
   `format_date` of downloads_weekly_review.py (lines 39-41):
   epoch seconds -> '%Y-%m-%d %H:%M'.  `datetime.fromtimestamp` uses the
   local timezone; the model fixes it to UTC (none of the claims depend
   on the zone).  Civil-from-days is the standard era-based conversion.
   ------------------------------------------------------------------ -/

def civilFromDays (z0 : Int) : Int × Int × Int :=
  let z := z0 + 719468
  let era := (if 0 ≤ z then z else z - 146096) / 146097
  let doe := z - era * 146097
  let yoe := (doe - doe / 1460 + doe / 36524 - doe / 146096) / 365
  let y := yoe + era * 400
  let doy := doe - (365 * yoe + yoe / 4 - yoe / 100)
  let mp := (5 * doy + 2) / 153
  let dd := doy - (153 * mp + 2) / 5 + 1
  let m := mp + (if mp < 10 then 3 else -9)
  (y + (if m ≤ 2 then 1 else 0), m, dd)

def formatDate (t : ℚ) : String :=
  let s : Int := ⌊t⌋
  let days : Int := Int.fdiv s 86400
  let rem : Int := s - days * 86400
  let c := civilFromDays days
  let hh : Int := rem / 3600
  let mi : Int := (rem % 3600) / 60
  String.mk (natStr c.1.toNat ++ '-' ::
    (pad2 c.2.1.toNat ++ '-' ::
      (pad2 c.2.2.toNat ++ ' ' ::
        (pad2 hh.toNat ++ ':' :: pad2 mi.toNat))))

/- ------------------------------------------------------------------
   Weekly-review pipeline (downloads_weekly_review.py): record shapes of
   scan_downloads_folder (lines 54-135) and the aggregation analyze_files
   (lines 138-188).
   ------------------------------------------------------------------ -/

/-- One file record of the weekly scanner (dict built at lines 79-87). -/
structure WFile where
  name : String
  size_bytes : Nat
  size_formatted : String
  modified_time : ℚ
  modified_formatted : String
  path : String
  relative_path : String
deriving DecidableEq

/-- One subfolder record of the weekly scanner (dict at lines 116-124). -/
structure WFolder where
  name : String
  file_count : Nat
  total_size : Nat
  total_size_formatted : String
  created_time : ℚ
  created_formatted : String
  path : String
deriving DecidableEq

/-- The analysis dict of analyze_files.  Python's empty-input branch
returns a dict where `total_size_formatted` and `average_size_formatted`
are absent and `oldest_date`/`newest_date` hold `None`; both absence and
`None` are modelled as `Option.none`. -/
structure WAnalysis where
  total_files : Nat
  total_size : Nat
  total_size_formatted : Option String
  average_size : ℚ
  average_size_formatted : Option String
  oldest_date : Option String
  newest_date : Option String
  largest_files : List WFile
  recent_files : List WFile
  oldest_files : List WFile
  subfolders : List WFolder
deriving DecidableEq

/-- Python's `min` on a nonempty list ( `[]` never reached in source). -/
def qMin : List ℚ → ℚ
  | [] => 0
  | t :: ts => ts.foldl min t

/-- Python's `max` on a nonempty list. -/
def qMax : List ℚ → ℚ
  | [] => 0
  | t :: ts => ts.foldl max t

/-- `analyze_files(files_data, subfolders_data)`, lines 138-188.  The call
`datetime.now().timestamp()` at line 166 is the explicit `now` argument. -/
def analyzeFiles (files : List WFile) (subs : List WFolder) (now : ℚ) :
    WAnalysis :=
  if files = [] then
    ⟨0, 0, none, 0, none, none, none, [], [], [], []⟩
  else
    let total_files : Nat := files.length
    let total_size : Nat := (files.map (fun f => f.size_bytes)).sum
    let average_size : ℚ :=
      if 0 < total_files then (total_size : ℚ) / (total_files : ℚ) else 0
    let oldest := qMin (files.map (fun f => f.modified_time))
    let newest := qMax (files.map (fun f => f.modified_time))
    let largest := (sortDescBy (fun f => f.size_bytes) files).take 15
    let sevenDaysAgo : ℚ := now - (7 * 24 * 60 * 60)
    let recent := sortDescBy (fun f => f.modified_time)
      (files.filter (fun f => decide (sevenDaysAgo ≤ f.modified_time)))
    let oldestFiles := (sortAscBy (fun f => f.modified_time) files).take 15
    let sortedSubs := sortDescBy (fun s => s.total_size) subs
    ⟨total_files, total_size, some (formatFileSize total_size), average_size,
     some (formatFileSizeQ average_size), some (formatDate oldest),
     some (formatDate newest), largest, recent, oldestFiles, sortedSubs⟩

def notDot (c : Char) : Bool := c != '.'

/-- `filename.rsplit('.', 1)` when `'.' in filename`: the part before the
last dot and the part after it. -/
def lastDotSplit (fn : List Char) : List Char × List Char :=
  (((fn.reverse.dropWhile notDot).drop 1).reverse,
   (fn.reverse.takeWhile notDot).reverse)

def dots3 : List Char := ['.', '.', '.']

/-- `truncate_filename(filename, max_length=40)`, lines 191-205, on the
character list of the name. -/
def truncateFilename (fn : List Char) : List Char :=
  if fn.length ≤ 40 then fn
  else if '.' ∈ fn then
    let ne := lastDotSplit fn
    if ne.2.length < 40 - 3 then
      let avail : Int := 40 - (ne.2.length : Int) - 4
      if 0 < avail then ne.1.take avail.toNat ++ dots3 ++ ne.2
      else fn.take (40 - 3) ++ dots3
    else fn.take (40 - 3) ++ dots3
  else fn.take (40 - 3) ++ dots3

/- ------------------------------------------------------------------
   The weekly scanner's subfolder pass (lines 96-129): a filesystem is a
   list of entries under the scan root; per-file readability models a
   failing stat (lines 109-110), skipped silently.
   ------------------------------------------------------------------ -/

/-- Metadata of one regular file; `readable` is whether `stat` succeeds. -/
structure FMeta where
  name : String
  size_bytes : Nat
  modified_time : ℚ
  readable : Bool
deriving DecidableEq

/-- A filesystem entry: a regular file or a directory with a name, a
creation timestamp and child entries. -/
inductive Entry where
  | fileE : FMeta → Entry
  | dirE : String → ℚ → List Entry → Entry

/-- The files `rglob('*')` reaches below an entry, in traversal order. -/
def filesUnder : Entry → List FMeta
  | .fileE m => [m]
  | .dirE _ _ es => es.attach.flatMap (fun e => filesUnder e.1)
termination_by e => sizeOf e
decreasing_by
  simp_wf
  have h := List.sizeOf_lt_of_mem e.2
  omega

/-- The per-subfolder body of the loop at lines 96-125: count the stat-able
files below the directory, sum their sizes, and emit a record only when
`file_count > 0` (line 112). -/
def subRecordOf : Entry → Option WFolder
  | .fileE _ => none
  | .dirE n ct es =>
      let fs := (filesUnder (.dirE n ct es)).filter (fun m => m.readable)
      let c := fs.length
      let ts := (fs.map (fun m => m.size_bytes)).sum
      if 0 < c then
        some ⟨n, c, ts, formatFileSize ts, ct, formatDate ct, n⟩
      else none

/-- `subfolders_data` produced by scan_downloads_folder for a root whose
immediate entries are `root`. -/
def scanSubfolders (root : List Entry) : List WFolder :=
  root.filterMap subRecordOf

/- ------------------------------------------------------------------
   Summary pipeline (summary_report.py): read_csv_data row shape
   (lines 29-49) and analyze_data (lines 52-106).
   ------------------------------------------------------------------ -/

/-- One row as read_csv_data leaves it: the CSV's six string fields with
`size_bytes` converted to an integer and `modified_datetime` added. -/
structure SFile where
  filename : String
  full_path : String
  size_bytes : Nat
  size_formatted : String
  modified_date : String
  extension : String
  modified_datetime : DateTime
deriving DecidableEq

structure FileTypeInfo where
  extension : String
  count : Nat
  total_size : Nat
  total_size_formatted : String
deriving DecidableEq

structure YearInfo where
  year : Nat
  count : Nat
  total_size : Nat
  total_size_formatted : String
deriving DecidableEq

structure SAnalysis where
  total_files : Nat
  total_size : Nat
  total_size_formatted : String
  largest_files : List SFile
  file_types : List FileTypeInfo
  files_by_year : List YearInfo
deriving DecidableEq

/-- Extension normalisation of lines 73-75: lower-case, the empty string
replaced by the sentinel label. -/
def extKey (e : String) : String :=
  let low := e.toLower
  if low = "" then "(no extension)" else low

/-- Counter/defaultdict accumulation: first-encounter order, counts and
sizes updated in place. -/
def upsertBy [DecidableEq κ] :
    List (κ × Nat × Nat) → κ → Nat → List (κ × Nat × Nat)
  | [], k, sz => [(k, 1, sz)]
  | (k', c, s) :: t, k, sz =>
      if k' = k then (k', c + 1, s + sz) :: t
      else (k', c, s) :: upsertBy t k sz

/-- `analyze_data(files_data)`, lines 52-106.  `Counter.most_common()` is a
stable sort by count descending over insertion order; `sorted(keys,
reverse=True)` over distinct years is a descending sort. -/
def analyzeData (files : List SFile) : SAnalysis :=
  let total_files := files.length
  let total_size := (files.map (fun f => f.size_bytes)).sum
  let largest := (sortDescBy (fun f => f.size_bytes) files).take 10
  let extGroups := files.foldl
    (fun acc f => upsertBy acc (extKey f.extension) f.size_bytes) []
  let fileTypes := (sortDescBy (fun g => g.2.1) extGroups).map
    (fun g => (⟨g.1, g.2.1, g.2.2, formatFileSize g.2.2⟩ : FileTypeInfo))
  let yearGroups := files.foldl
    (fun acc f => upsertBy acc f.modified_datetime.year f.size_bytes) []
  let filesByYear := (sortDescBy (fun g => g.1) yearGroups).map
    (fun g => (⟨g.1, g.2.1, g.2.2, formatFileSize g.2.2⟩ : YearInfo))
  ⟨total_files, total_size, formatFileSize total_size, largest, fileTypes,
   filesByYear⟩

/-- The denominators of every division generate_markdown_report
(summary_report.py lines 136-151) performs: one `count / total_files` per
rendered file-type row (the first 20) and one per files-by-year row. -/
def summaryDivisions (a : SAnalysis) : List Nat :=
  (a.file_types.take 20).map (fun _ => a.total_files) ++
    a.files_by_year.map (fun _ => a.total_files)

/-- One row conversion of read_csv_data (lines 36-41): `int` on
`size_bytes`, `strptime` on `modified_date`; a failure of either is fatal
for the pipeline (modelled as `none`). -/
def parseRow (row : List String) : Option SFile :=
  match row with
  | [fn, fp, sz, szf, md, ext] =>
      match pyIntNat sz, parseDT md with
      | some n, some dt => some ⟨fn, fp, n, szf, md, ext, dt⟩
      | _, _ => none
  | _ => none

/- ------------------------------------------------------------------
   Census pipeline (file_census.py): scan_folder (lines 38-99) as a
   generator-step stream and create_csv_report (lines 102-133) as the
   fold that writes the header first and then one row per yielded record.
   ------------------------------------------------------------------ -/

/-- One file of the census scan root; `readable` is whether `stat`
succeeds (lines 89-92 skip failures), `mtime` the datetime
`datetime.fromtimestamp(st_mtime)` yields. -/
structure CFile where
  filename : String
  full_path : String
  size_bytes : Nat
  mtime : DateTime
  extension : String
  readable : Bool
deriving DecidableEq

/-- The scan root as the census sees it. -/
structure CRoot where
  present : Bool
  isDir : Bool
  files : List CFile
deriving DecidableEq

inductive ScanErr where
  | notFound
  | notADirectory
deriving DecidableEq

def headerRow : List String :=
  ["filename", "full_path", "size_bytes", "size_formatted",
   "modified_date", "extension"]

/-- One CSV data row, with the fixed fieldnames order of line 112. -/
def rowOf (f : CFile) : List String :=
  [f.filename, f.full_path, String.mk (natStr f.size_bytes),
   formatFileSize f.size_bytes, fmtDT f.mtime, f.extension]

/-- Events create_csv_report observes from the scan_folder generator. -/
inductive GenStep where
  | yieldR : CFile → GenStep
  | interruptedR : GenStep
  | rootFailR : ScanErr → GenStep

/-- The generator's event stream.  The root checks (lines 44-48) run on
first iteration; a KeyboardInterrupt after `k` yields is caught inside the
generator (lines 94-96), which then simply returns, ending the stream. -/
def scanSteps (r : CRoot) (intr : Option Nat) : List GenStep :=
  if r.present = false then [.rootFailR .notFound]
  else if r.isDir = false then [.rootFailR .notADirectory]
  else
    match intr with
    | none => (r.files.filter (fun f => f.readable)).map .yieldR
    | some k =>
        ((r.files.filter (fun f => f.readable)).take k).map .yieldR ++
          [.interruptedR]

/-- The writer loop of create_csv_report (lines 115-126): rows already
written stay in the file (the `with` block closes it in every case); a
root error reaches the `except Exception` handler at lines 131-133 and
exits 1; a caught interrupt ends the loop and the report completes,
returning exit status 0. -/
def runCsv : List GenStep → List (List String) → List (List String) × Nat
  | [], acc => (acc, 0)
  | .yieldR f :: rest, acc => runCsv rest (acc ++ [rowOf f])
  | .interruptedR :: _, acc => (acc, 0)
  | .rootFailR _ :: _, acc => (acc, 1)

/-- `create_csv_report`: the final content of the output CSV (header row
first) and the process exit status. -/
def createCsvReport (r : CRoot) (intr : Option Nat) :
    List (List String) × Nat :=
  runCsv (scanSteps r intr) [headerRow]

/- ------------------------------------------------------------------
   Claim theorems.
   ------------------------------------------------------------------ -/

/-- Claim C4: format_file_size satisfies the shared formatting contract:
the five pinned values hold, and for every positive byte count the value
is divided by 1024 exactly as long as it remains at least 1024 and a
larger unit among B/KB/MB/GB/TB remains (the unit index is the largest
i at most 4 with 1024 ^ i bounded by n), the result rendered with exactly
one fractional digit; 0 is rendered as "0 B" without division. -/
theorem claim_C4 :
    formatFileSize 0 = "0 B" ∧
    formatFileSize 1023 = "1023.0 B" ∧
    formatFileSize 1024 = "1.0 KB" ∧
    formatFileSize 1536 = "1.5 KB" ∧
    formatFileSize (1024 ^ 4) = "1.0 TB" ∧
    (∀ n : Nat, 0 < n →
      formatFileSize n =
        fmtOneDec ((n : ℚ) / 1024 ^ specIdx n) ++ " " ++ sizeName (specIdx n) ∧
      specIdx n ≤ 4 ∧ 1024 ^ specIdx n ≤ n ∧
      (specIdx n < 4 → n < 1024 ^ (specIdx n + 1))) := by
  refine ⟨rfl, ?_, ?_, ?_, ?_, ?_⟩
  · unfold formatFileSize formatFileSizeQ
    rw [if_neg (by norm_num)]
    have hl : fsIter 4 ((1023 : ℕ) : ℚ) 0 = (1023, 0) := by
      norm_num [fsIter]
    rw [hl]
    show fmtOneDec 1023 ++ " " ++ sizeName 0 = _
    simp only [fmtOneDec]
    rw [show (10 : ℚ) * 1023 = ((10230 : ℤ) : ℚ) by norm_num,
      roundHalfEven_intCast]
    rfl
  · unfold formatFileSize formatFileSizeQ
    rw [if_neg (by norm_num)]
    have hl : fsIter 4 ((1024 : ℕ) : ℚ) 0 = (1, 1) := by
      norm_num [fsIter]
    rw [hl]
    show fmtOneDec 1 ++ " " ++ sizeName 1 = _
    simp only [fmtOneDec]
    rw [show (10 : ℚ) * 1 = ((10 : ℤ) : ℚ) by norm_num,
      roundHalfEven_intCast]
    rfl
  · unfold formatFileSize formatFileSizeQ
    rw [if_neg (by norm_num)]
    have hl : fsIter 4 ((1536 : ℕ) : ℚ) 0 = (3 / 2, 1) := by
      norm_num [fsIter]
    rw [hl]
    show fmtOneDec (3 / 2) ++ " " ++ sizeName 1 = _
    simp only [fmtOneDec]
    rw [show (10 : ℚ) * (3 / 2) = ((15 : ℤ) : ℚ) by norm_num,
      roundHalfEven_intCast]
    rfl
  · unfold formatFileSize formatFileSizeQ
    rw [if_neg (by norm_num)]
    have hl : fsIter 4 (((1024 ^ 4 : ℕ) : ℕ) : ℚ) 0 = (1, 4) := by
      norm_num [fsIter]
    rw [hl]
    show fmtOneDec 1 ++ " " ++ sizeName 4 = _
    simp only [fmtOneDec]
    rw [show (10 : ℚ) * 1 = ((10 : ℤ) : ℚ) by norm_num,
      roundHalfEven_intCast]
    rfl
  · intro n hn
    exact ⟨formatFileSize_eq n hn, specIdx_le_four n, pow_specIdx_le n hn,
      lt_pow_specIdx_succ n⟩

/-- Witness for the quantified part of C4 at the concrete input 2048. -/
theorem claim_C4_witness :
    formatFileSize 2048 =
      fmtOneDec ((2048 : ℚ) / 1024 ^ specIdx 2048) ++ " " ++
        sizeName (specIdx 2048) ∧
      specIdx 2048 ≤ 4 ∧ 1024 ^ specIdx 2048 ≤ 2048 ∧
      (specIdx 2048 < 4 → 2048 < 1024 ^ (specIdx 2048 + 1)) := by
  have h := claim_C4.2.2.2.2.2 2048 (by norm_num)
  exact_mod_cast h

theorem dropWhile_mem_dot (l : List Char) (h : '.' ∈ l) :
    ∃ t, l.dropWhile notDot = '.' :: t := by
  induction l with
  | nil => cases h
  | cons c cs ih =>
      by_cases hc : c = '.'
      · subst hc
        exact ⟨cs, by rw [List.dropWhile_cons]; simp [notDot]⟩
      · have hmem : '.' ∈ cs := by
          rcases List.mem_cons.mp h with h' | h'
          · exact absurd h'.symm hc
          · exact h'
        obtain ⟨t, ht⟩ := ih hmem
        refine ⟨t, ?_⟩
        rw [List.dropWhile_cons]
        have : notDot c = true := by simp [notDot, hc]
        rw [this, if_pos rfl, ht]

/-- `rsplit('.', 1)` decomposition: when a dot occurs in the name, the
name is the part before the last dot, a dot, and a dot-free tail. -/
theorem lastDotSplit_spec (fn : List Char) (h : '.' ∈ fn) :
    fn = (lastDotSplit fn).1 ++ '.' :: (lastDotSplit fn).2 ∧
      '.' ∉ (lastDotSplit fn).2 := by
  have hr : '.' ∈ fn.reverse := List.mem_reverse.mpr h
  obtain ⟨t, ht⟩ := dropWhile_mem_dot fn.reverse hr
  have hsplit : fn.reverse.takeWhile notDot ++ fn.reverse.dropWhile notDot =
      fn.reverse := List.takeWhile_append_dropWhile notDot fn.reverse
  have h1 : (lastDotSplit fn).1 = t.reverse := by
    show ((fn.reverse.dropWhile notDot).drop 1).reverse = _
    rw [ht]
    rfl
  have h2 : (lastDotSplit fn).2 = (fn.reverse.takeWhile notDot).reverse := rfl
  constructor
  · rw [h1, h2]
    have hfn : fn = (fn.reverse.takeWhile notDot ++ '.' :: t).reverse := by
      rw [ht] at hsplit
      rw [hsplit, List.reverse_reverse]
    conv_lhs => rw [hfn]
    rw [List.reverse_append, List.reverse_cons, List.append_assoc]
    simp
  · rw [h2]
    intro hmem
    have hp := List.mem_takeWhile_imp (List.mem_reverse.mp hmem)
    simp [notDot] at hp

/-- Claim C8: truncate_filename with limit 40: a 50-character name whose
extension after the last dot has 3 characters truncates to at most 40
characters ending with that extension; an over-long name without a dot
becomes exactly its first 37 characters plus "..." (40 characters); a name
of at most 40 characters is returned unchanged. -/
theorem claim_C8 :
    (∀ fn : List Char, fn.length = 50 → '.' ∈ fn →
        (lastDotSplit fn).2.length = 3 →
        (truncateFilename fn).length ≤ 40 ∧
        ∃ p, truncateFilename fn = p ++ (lastDotSplit fn).2) ∧
    (∀ fn : List Char, 40 < fn.length → '.' ∉ fn →
        truncateFilename fn = fn.take 37 ++ dots3 ∧
        (truncateFilename fn).length = 40) ∧
    (∀ fn : List Char, fn.length ≤ 40 → truncateFilename fn = fn) := by
  refine ⟨?_, ?_, ?_⟩
  · intro fn h50 hdot hext
    obtain ⟨hsplit, -⟩ := lastDotSplit_spec fn hdot
    have hnm : (lastDotSplit fn).1.length = 46 := by
      have := congrArg List.length hsplit
      simp only [List.length_append, List.length_cons, hext] at this
      omega
    have htr : truncateFilename fn =
        (lastDotSplit fn).1.take 33 ++ dots3 ++ (lastDotSplit fn).2 := by
      simp only [truncateFilename]
      rw [if_neg (by omega), if_pos hdot, hext]
      rw [if_pos (by norm_num), if_pos (by norm_num),
        show ((40 : ℤ) - ((3 : ℕ) : ℤ) - 4).toNat = 33 by decide]
    rw [htr]
    constructor
    · simp only [List.length_append, List.length_take, hnm, hext, dots3,
        List.length_cons, List.length_nil]
      omega
    · exact ⟨(lastDotSplit fn).1.take 33 ++ dots3, by rw [List.append_assoc]⟩
  · intro fn h40 hnd
    have htr : truncateFilename fn = fn.take (40 - 3) ++ dots3 := by
      simp only [truncateFilename]
      rw [if_neg (by omega), if_neg hnd]
    constructor
    · rw [htr]
    · rw [htr]
      simp only [List.length_append, List.length_take, dots3,
        List.length_cons, List.length_nil]
      omega
  · intro fn h
    simp only [truncateFilename]
    rw [if_pos h]

def c8name1 : List Char := List.replicate 46 'a' ++ ['.', 't', 'x', 't']

def c8name2 : List Char := List.replicate 50 'b'

def c8name3 : List Char := ['r', 'e', 'p', 'o', 'r', 't', '.', 'p', 'd', 'f']

/-- Witness for C8 at three concrete filenames, one per hypothesis. -/
theorem claim_C8_witness :
    ((truncateFilename c8name1).length ≤ 40 ∧
      ∃ p, truncateFilename c8name1 = p ++ (lastDotSplit c8name1).2) ∧
    (truncateFilename c8name2 = c8name2.take 37 ++ dots3 ∧
      (truncateFilename c8name2).length = 40) ∧
    truncateFilename c8name3 = c8name3 :=
  ⟨claim_C8.1 c8name1 (by decide) (by decide) (by decide),
   claim_C8.2.1 c8name2 (by decide) (by decide),
   claim_C8.2.2 c8name3 (by decide)⟩

/-- Claim C5: a record written to CSV by the census pipeline and read
back by the summary pipeline's reader keeps its filename, integer
size_bytes and extension, and regains as modified_datetime exactly the
datetime whose strftime rendering is the written modified_date. -/
theorem claim_C5 (f : CFile) (hv : dtValid f.mtime) :
    parseRow (rowOf f) = some ⟨f.filename, f.full_path, f.size_bytes,
      formatFileSize f.size_bytes, fmtDT f.mtime, f.extension, f.mtime⟩ := by
  show (match pyIntNat (String.mk (natStr f.size_bytes)),
      parseDT (fmtDT f.mtime) with
    | some n, some dt => some (⟨f.filename, f.full_path, n,
        formatFileSize f.size_bytes, fmtDT f.mtime, f.extension, dt⟩ : SFile)
    | _, _ => none) = _
  rw [pyIntNat_natStr, parseDT_fmtDT f.mtime hv]

def c5file : CFile :=
  ⟨"report.pdf", "/home/u/Downloads/report.pdf", 123456,
   ⟨2024, 3, 5, 14, 30, 7⟩, ".pdf", true⟩

/-- Witness for C5 at a concrete record. -/
theorem claim_C5_witness :
    parseRow (rowOf c5file) = some ⟨"report.pdf",
      "/home/u/Downloads/report.pdf", 123456, formatFileSize 123456,
      fmtDT ⟨2024, 3, 5, 14, 30, 7⟩, ".pdf", ⟨2024, 3, 5, 14, 30, 7⟩⟩ :=
  claim_C5 c5file (by decide)

/-- The top-N-descending characterisation every stable `sorted(...,
reverse=True)[:n]` slice enjoys: descending order, length `min n len`,
completeness (the rest of the input is dominated by every kept element),
and stability (per key the kept elements form an initial segment of the
input's occurrences in input order). -/
theorem topDesc_spec (key : α → γ) [LinearOrder γ] (l : List α) (n : Nat) :
    ((sortDescBy key l).take n).Pairwise (fun a b => key b ≤ key a) ∧
    ((sortDescBy key l).take n).length = min n l.length ∧
    (∃ rest, List.Perm l ((sortDescBy key l).take n ++ rest) ∧
      ∀ a ∈ (sortDescBy key l).take n, ∀ b ∈ rest, key b ≤ key a) ∧
    (∀ k, ∃ t, l.filter (fun x => decide (key x = k)) =
      ((sortDescBy key l).take n).filter (fun x => decide (key x = k)) ++ t) := by
  have hperm := sortDescBy_perm key l
  have hsorted := sortDescBy_pairwise key l
  have hsplit : (sortDescBy key l).take n ++ (sortDescBy key l).drop n =
      sortDescBy key l := List.take_append_drop n (sortDescBy key l)
  have hsortsplit : ((sortDescBy key l).take n ++
      (sortDescBy key l).drop n).Pairwise (fun a b => key b ≤ key a) := by
    rw [hsplit]
    exact hsorted
  refine ⟨?_, ?_, ?_, ?_⟩
  · exact hsorted.sublist (List.take_sublist n _)
  · rw [List.length_take, hperm.length_eq]
  · refine ⟨(sortDescBy key l).drop n, ?_, ?_⟩
    · rw [hsplit]
      exact hperm.symm
    · exact (List.pairwise_append.mp hsortsplit).2.2
  · intro k
    refine ⟨((sortDescBy key l).drop n).filter
      (fun x => decide (key x = k)), ?_⟩
    rw [← List.filter_append, hsplit, sortDescBy_filter_key]

theorem analyzeFiles_largest (files : List WFile) (subs : List WFolder)
    (now : ℚ) :
    (analyzeFiles files subs now).largest_files =
      (sortDescBy (fun f => f.size_bytes) files).take 15 := by
  by_cases h : files = []
  · subst h
    rfl
  · simp [analyzeFiles, h]

theorem analyzeData_largest (rows : List SFile) :
    (analyzeData rows).largest_files =
      (sortDescBy (fun f => f.size_bytes) rows).take 10 := rfl

/-- Claim C6: largest_files is the top 15 (weekly pipeline) and top 10
(summary pipeline) records by size_bytes descending; the slice is sorted
descending, of length min(N, total), dominates every record left out, and
equal-size records appear in their original input order (per size the kept
records are an initial segment of the input's records of that size). -/
theorem claim_C6 (files : List WFile) (subs : List WFolder) (now : ℚ)
    (rows : List SFile) :
    ((analyzeFiles files subs now).largest_files.Pairwise
        (fun a b => b.size_bytes ≤ a.size_bytes) ∧
      (analyzeFiles files subs now).largest_files.length =
        min 15 files.length ∧
      (∃ rest, List.Perm files
          ((analyzeFiles files subs now).largest_files ++ rest) ∧
        ∀ a ∈ (analyzeFiles files subs now).largest_files, ∀ b ∈ rest,
          b.size_bytes ≤ a.size_bytes) ∧
      (∀ k, ∃ t, files.filter (fun f => decide (f.size_bytes = k)) =
        (analyzeFiles files subs now).largest_files.filter
          (fun f => decide (f.size_bytes = k)) ++ t)) ∧
    ((analyzeData rows).largest_files.Pairwise
        (fun a b => b.size_bytes ≤ a.size_bytes) ∧
      (analyzeData rows).largest_files.length = min 10 rows.length ∧
      (∃ rest, List.Perm rows ((analyzeData rows).largest_files ++ rest) ∧
        ∀ a ∈ (analyzeData rows).largest_files, ∀ b ∈ rest,
          b.size_bytes ≤ a.size_bytes) ∧
      (∀ k, ∃ t, rows.filter (fun f => decide (f.size_bytes = k)) =
        (analyzeData rows).largest_files.filter
          (fun f => decide (f.size_bytes = k)) ++ t)) := by
  constructor
  · rw [analyzeFiles_largest]
    exact topDesc_spec (fun f => f.size_bytes) files 15
  · rw [analyzeData_largest]
    exact topDesc_spec (fun f => f.size_bytes) rows 10

def c6fileA : WFile := ⟨"x.iso", 5, "", 0, "", "", ""⟩

def c6fileB : WFile := ⟨"y.iso", 7, "", 0, "", "", ""⟩

/-- Witness for C6 at a concrete two-record collection. -/
theorem claim_C6_witness :
    (analyzeFiles [c6fileA, c6fileB] [] 0).largest_files.length = min 15 2 ∧
    (analyzeData []).largest_files.length = min 10 0 :=
  ⟨(claim_C6 [c6fileA, c6fileB] [] 0 []).1.2.1,
   (claim_C6 [c6fileA, c6fileB] [] 0 []).2.2.1⟩

theorem analyzeFiles_recent (files : List WFile) (subs : List WFolder)
    (now : ℚ) :
    (analyzeFiles files subs now).recent_files =
      sortDescBy (fun f => f.modified_time)
        (files.filter
          (fun f => decide (now - (7 * 24 * 60 * 60) ≤ f.modified_time))) := by
  by_cases h : files = []
  · subst h
    rfl
  · simp [analyzeFiles, h]

def c7file : WFile := ⟨"future.bin", 1, "", 1000000, "", "", ""⟩

/-- Counterexample to claim C7 as stated: at aggregation time now = 0 the
record with modified_time 1000000 lies outside the claimed window
(its modified_time exceeds now), yet analyze_files places it in
recent_files — the code's filter has no upper bound. -/
theorem claim_C7_counterexample :
    c7file ∈ (analyzeFiles [c7file] [] 0).recent_files ∧
    ¬ (c7file.modified_time ≤ (0 : ℚ)) := by
  constructor
  · rw [analyzeFiles_recent]
    have hfil : List.filter
        (fun f => decide ((0 : ℚ) - (7 * 24 * 60 * 60) ≤ f.modified_time))
        [c7file] = [c7file] := by
      rw [List.filter_cons, if_pos]
      · rfl
      · have : ((0 : ℚ) - (7 * 24 * 60 * 60) ≤ c7file.modified_time) := by
          show (0 : ℚ) - (7 * 24 * 60 * 60) ≤ 1000000
          norm_num
        exact decide_eq_true this
    rw [hfil]
    exact List.mem_singleton.mpr rfl
  · show ¬ ((1000000 : ℚ) ≤ 0)
    norm_num

/-- Claim C7 as amended: recent_files contains exactly the records whose
modified_time is at least now - 604800 — with no upper bound, so
future-dated records are included — sorted by modified_time descending. -/
theorem claim_C7_amended (files : List WFile) (subs : List WFolder)
    (now : ℚ) :
    List.Perm (analyzeFiles files subs now).recent_files
      (files.filter (fun f => decide (now - 604800 ≤ f.modified_time))) ∧
    (analyzeFiles files subs now).recent_files.Pairwise
      (fun a b => b.modified_time ≤ a.modified_time) ∧
    (∀ f ∈ (analyzeFiles files subs now).recent_files,
      now - 604800 ≤ f.modified_time) ∧
    (∀ f ∈ files, now - 604800 ≤ f.modified_time →
      f ∈ (analyzeFiles files subs now).recent_files) := by
  have hconst : (7 * 24 * 60 * 60 : ℚ) = 604800 := by norm_num
  have hb := analyzeFiles_recent files subs now
  rw [hconst] at hb
  refine ⟨?_, ?_, ?_, ?_⟩
  · rw [hb]
    exact sortDescBy_perm _ _
  · rw [hb]
    exact sortDescBy_pairwise _ _
  · intro f hf
    rw [hb] at hf
    have hf' := (sortDescBy_perm (fun f : WFile => f.modified_time)
      _).mem_iff.mp hf
    exact of_decide_eq_true (List.mem_filter.mp hf').2
  · intro f hf hle
    rw [hb]
    exact (sortDescBy_perm (fun f : WFile => f.modified_time) _).mem_iff.mpr
      (List.mem_filter.mpr ⟨hf, decide_eq_true hle⟩)

/-- Witness for the membership parts of the amended C7 at a concrete
record inside the window. -/
theorem claim_C7_witness :
    c7file ∈ (analyzeFiles [c7file] [] 1000000).recent_files ∧
    (1000000 : ℚ) - 604800 ≤ c7file.modified_time :=
  ⟨(claim_C7_amended [c7file] [] 1000000).2.2.2 c7file
      (List.mem_singleton.mpr rfl) (by norm_num [c7file]),
   by norm_num [c7file]⟩

def c2file : WFile := ⟨"a", 1, "", 100, "", "", ""⟩

/-- Counterexample to claim C2 as stated: analyze_files reads the clock
(`datetime.now()` at line 166), so two invocations on the identical input
collection, at clock values 604800 and 1000000000, disagree — the record
with modified_time 100 is recent for the first and not for the second. -/
theorem claim_C2_counterexample :
    analyzeFiles [c2file] [] 604800 ≠ analyzeFiles [c2file] [] 1000000000 := by
  intro h
  have h2 := congrArg WAnalysis.recent_files h
  rw [analyzeFiles_recent, analyzeFiles_recent] at h2
  have e1 : List.filter
      (fun f => decide ((604800 : ℚ) - (7 * 24 * 60 * 60) ≤ f.modified_time))
      [c2file] = [c2file] := by
    rw [List.filter_cons, if_pos]
    · rfl
    · have : ((604800 : ℚ) - (7 * 24 * 60 * 60) ≤ c2file.modified_time) := by
        show (604800 : ℚ) - (7 * 24 * 60 * 60) ≤ 100
        norm_num
      exact decide_eq_true this
  have e2 : List.filter
      (fun f => decide ((1000000000 : ℚ) - (7 * 24 * 60 * 60) ≤
        f.modified_time)) [c2file] = [] := by
    rw [List.filter_cons, if_neg]
    · rfl
    · have : ¬ ((1000000000 : ℚ) - (7 * 24 * 60 * 60) ≤
          c2file.modified_time) := by
        show ¬ ((1000000000 : ℚ) - (7 * 24 * 60 * 60) ≤ 100)
        norm_num
      simpa using this
  rw [e1, e2] at h2
  simp [sortDescBy, pySorted, pyInsert] at h2

/-- Claim C2 as amended: the aggregation of the weekly pipeline is a
deterministic function of the input collections together with the clock
value it reads, and only the recent_files component depends on the clock:
every other field agrees between invocations at different clock values on
identical inputs (analyze_data takes no clock at all and is a pure
function of its input by construction). -/
theorem claim_C2_amended (files : List WFile) (subs : List WFolder)
    (n₁ n₂ : ℚ) :
    (analyzeFiles files subs n₁).total_files =
      (analyzeFiles files subs n₂).total_files ∧
    (analyzeFiles files subs n₁).total_size =
      (analyzeFiles files subs n₂).total_size ∧
    (analyzeFiles files subs n₁).total_size_formatted =
      (analyzeFiles files subs n₂).total_size_formatted ∧
    (analyzeFiles files subs n₁).average_size =
      (analyzeFiles files subs n₂).average_size ∧
    (analyzeFiles files subs n₁).average_size_formatted =
      (analyzeFiles files subs n₂).average_size_formatted ∧
    (analyzeFiles files subs n₁).oldest_date =
      (analyzeFiles files subs n₂).oldest_date ∧
    (analyzeFiles files subs n₁).newest_date =
      (analyzeFiles files subs n₂).newest_date ∧
    (analyzeFiles files subs n₁).largest_files =
      (analyzeFiles files subs n₂).largest_files ∧
    (analyzeFiles files subs n₁).oldest_files =
      (analyzeFiles files subs n₂).oldest_files ∧
    (analyzeFiles files subs n₁).subfolders =
      (analyzeFiles files subs n₂).subfolders := by
  by_cases h : files = [] <;>
    simp [analyzeFiles, h]

/-- Claim C3: the empty input collection yields the all-zero aggregation
in both pipelines — every count 0, every derived list empty (whatever
subfolder records accompany the weekly call), average_size 0 — and the
summary renderer performs no division on that result (its list of
performed divisions is empty; the weekly aggregation's only division is
guarded by total_files > 0 and is never reached on empty input). -/
theorem claim_C3 (subs : List WFolder) (now : ℚ) :
    analyzeFiles [] subs now =
      ⟨0, 0, none, 0, none, none, none, [], [], [], []⟩ ∧
    analyzeData [] = ⟨0, 0, "0 B", [], [], []⟩ ∧
    summaryDivisions (analyzeData []) = [] := by
  exact ⟨rfl, rfl, rfl⟩

theorem filter_readable_pos_iff (fs : List FMeta) :
    0 < (fs.filter (fun m => m.readable)).length ↔
      ∃ f ∈ fs, f.readable = true := by
  rw [List.length_pos]
  constructor
  · intro hne
    cases hf : fs.filter (fun m => m.readable) with
    | nil => exact absurd hf hne
    | cons a t =>
        have ha : a ∈ fs.filter (fun m => m.readable) := by
          rw [hf]
          exact List.mem_cons_self _ _
        have := List.mem_filter.mp ha
        exact ⟨a, this.1, this.2⟩
  · rintro ⟨f, hf, hr⟩ hnil
    have : f ∈ fs.filter (fun m => m.readable) :=
      List.mem_filter.mpr ⟨hf, hr⟩
    rw [hnil] at this
    cases this

theorem subRecordOf_some_iff (n : String) (ct : ℚ) (es : List Entry) :
    (∃ rec, subRecordOf (Entry.dirE n ct es) = some rec) ↔
      ∃ f ∈ filesUnder (Entry.dirE n ct es), f.readable = true := by
  rw [← filter_readable_pos_iff]
  constructor
  · rintro ⟨rec, hrec⟩
    simp only [subRecordOf] at hrec
    by_cases h : 0 < ((filesUnder (Entry.dirE n ct es)).filter
        (fun m => m.readable)).length
    · exact h
    · rw [if_neg h] at hrec
      cases hrec
  · intro h
    simp only [subRecordOf, h, if_true]
    exact ⟨_, rfl⟩

/-- Claim C9: the weekly scanner emits a FolderRecord for an immediate
subdirectory exactly when at least one file below it has a succeeding
stat (file_count > 0); every emitted record comes from such a
subdirectory, and a subdirectory with zero discoverable files yields no
record. -/
theorem claim_C9 (root : List Entry) :
    (∀ rec ∈ scanSubfolders root, ∃ n ct es, Entry.dirE n ct es ∈ root ∧
        subRecordOf (Entry.dirE n ct es) = some rec ∧
        ∃ f ∈ filesUnder (Entry.dirE n ct es), f.readable = true) ∧
    (∀ n ct es, Entry.dirE n ct es ∈ root →
        ((∃ rec, subRecordOf (Entry.dirE n ct es) = some rec) ↔
          ∃ f ∈ filesUnder (Entry.dirE n ct es), f.readable = true)) := by
  constructor
  · intro rec hrec
    obtain ⟨e, he, hsome⟩ := List.mem_filterMap.mp hrec
    cases e with
    | fileE m => cases hsome
    | dirE n ct es =>
        exact ⟨n, ct, es, he, hsome,
          (subRecordOf_some_iff n ct es).mp ⟨rec, hsome⟩⟩
  · intro n ct es _
    exact subRecordOf_some_iff n ct es

def c9meta : FMeta := ⟨"a.bin", 10, 0, true⟩

def c9root : List Entry := [Entry.dirE "sub" 0 [Entry.fileE c9meta]]

/-- Witness for C9 on a one-subfolder root containing one readable file. -/
theorem claim_C9_witness :
    ∃ rec, subRecordOf (Entry.dirE "sub" 0 [Entry.fileE c9meta]) =
      some rec :=
  ((claim_C9 c9root).2 "sub" 0 [Entry.fileE c9meta]
      (List.mem_singleton.mpr rfl)).mpr
    ⟨c9meta, by simp [filesUnder], rfl⟩

theorem runCsv_yields (l : List CFile) (acc : List (List String)) :
    runCsv (l.map GenStep.yieldR ++ [GenStep.interruptedR]) acc =
      (acc ++ l.map rowOf, 0) := by
  induction l generalizing acc with
  | nil => simp [runCsv]
  | cons f fs ih =>
      show runCsv (GenStep.yieldR f :: (fs.map GenStep.yieldR ++
        [GenStep.interruptedR])) acc = _
      rw [runCsv, ih]
      simp

def c1fileA : CFile :=
  ⟨"a.txt", "/d/a.txt", 10, ⟨2024, 1, 2, 3, 4, 5⟩, ".txt", true⟩

def c1fileB : CFile :=
  ⟨"b.txt", "/d/b.txt", 20, ⟨2024, 1, 2, 3, 4, 6⟩, ".txt", true⟩

def c1root : CRoot := ⟨true, true, [c1fileA, c1fileB]⟩

/-- Counterexample to claim C1 as stated: on a valid two-file root
interrupted after the first yield, the CSV is closed holding the header
and that first row — but the exit status is 0, not non-zero, because
scan_folder catches the KeyboardInterrupt (lines 94-96) and returns,
letting create_csv_report and main complete normally. -/
theorem claim_C1_counterexample :
    (createCsvReport c1root (some 1)).2 = 0 ∧
    (createCsvReport c1root (some 1)).1 = [headerRow, rowOf c1fileA] :=
  ⟨rfl, rfl⟩

/-- Claim C1 as amended: when a KeyboardInterrupt arrives during the
record-emitting traversal after k yields on a valid root, the CSV file is
closed containing the header row plus exactly the rows written before the
interrupt, and the process exits with status 0 (the generator swallows
the interrupt; the report then completes normally). -/
theorem claim_C1_amended (r : CRoot) (k : Nat) (hp : r.present = true)
    (hd : r.isDir = true) :
    createCsvReport r (some k) =
      (headerRow :: ((r.files.filter (fun f => f.readable)).take k).map
        rowOf, 0) := by
  unfold createCsvReport scanSteps
  rw [hp, hd]
  simp only [Bool.true_eq_false, if_false]
  rw [runCsv_yields]
  simp

/-- Witness for the amended C1 at the concrete two-file root. -/
theorem claim_C1_witness :
    createCsvReport c1root (some 1) =
      (headerRow :: ((c1root.files.filter (fun f => f.readable)).take 1).map
        rowOf, 0) :=
  claim_C1_amended c1root 1 rfl rfl

/-- Claim C10: for a root that is absent or not a directory, the census
pipeline still creates the CSV and writes the header before the lazy
generator's first iteration raises, so the run leaves a CSV holding
exactly the header row and exits with status 1. -/
theorem claim_C10 (r : CRoot) (intr : Option Nat)
    (h : r.present = false ∨ r.isDir = false) :
    createCsvReport r intr = ([headerRow], 1) := by
  unfold createCsvReport scanSteps
  rcases h with h | h
  · rw [h]
    simp [runCsv]
  · cases hp : r.present with
    | false =>
        simp [runCsv]
    | true =>
        rw [h]
        simp [runCsv]

def c10root : CRoot := ⟨false, true, []⟩

/-- Witness for C10 at a missing root. -/
theorem claim_C10_witness : createCsvReport c10root none = ([headerRow], 1) :=
  claim_C10 c10root none (Or.inl rfl)

end FileCensus
